import Mathlib

/-!
Verification of `tor2web/utils/gettor.py` (GetTor routines).

The development shallowly embeds the pure computational content of the
module:

* `getLatestTBBVersion` together with the `distutils.version.LooseVersion`
  ordering it relies on;
* `getBestLangMatch` with its helpers `parse_accept_language` and
  `language_only`;
* the filename-matching regular expression generated inside `getTorTask`
  (the `filenames_regexp` / `url_regexp` construction), modelled as the
  language of candidate filename tokens captured by group 1 of the
  generated pattern;
* the filesystem/marker state transitions of one `getTorTask` sync cycle,
  modelled as a sequence of atomic steps over an abstract state, with an
  explicit failure-injection point modelling a raised exception, and the
  surrounding `try ... except Exception: pass`.

String-valued Python operations (`split`, `replace`, `in`, `lower`) are
realised as structural functions on `List Char` so that every definition
evaluates by kernel reduction.
-/

/-! ## Character-list models of the Python string operations -/

/-- Python `s.split(sep)` for a one-character separator: splitting an
empty string yields `[""]`, and separators at either end yield empty
pieces, exactly as in Python. -/
def splitOnChar (sep : Char) : List Char → List (List Char)
  | [] => [[]]
  | c :: cs =>
    match splitOnChar sep cs, decide (c = sep) with
    | r, true => [] :: r
    | [], false => [[c]]
    | g :: gs, false => (c :: g) :: gs

/-- Python `s.lower()` restricted to the ASCII range used by locale
codes. -/
def lowerChars (cs : List Char) : List Char := cs.map Char.toLower

/-! ## LooseVersion (distutils.version) -/

/-- One component of a parsed `LooseVersion`: either a numeric component
(`int(...)` succeeded) or a textual component. -/
inductive VComp where
  | num (n : Nat)
  | str (s : List Char)
deriving DecidableEq, Repr

/-- Character classes used by `LooseVersion.component_re`, the pattern
`(\d+ | [a-z]+ | \.)`: digits (0), lowercase letters (1), a dot (2), and
everything else (3, the text between matches kept by `re.split`). -/
def charKind (c : Char) : Nat :=
  if c.isDigit then 0
  else if 'a' ≤ c && c ≤ 'z' then 1
  else if c = '.' then 2
  else 3

/-- Group a character list into maximal runs of equal `charKind`,
accumulating the current run (reversed) in `cur`. -/
def groupRunsAux (k : Nat) (cur : List Char) : List Char → List (Nat × List Char)
  | [] => [(k, cur.reverse)]
  | c :: cs =>
    if charKind c = k then groupRunsAux k (c :: cur) cs
    else (k, cur.reverse) :: groupRunsAux (charKind c) [c] cs

/-- Maximal runs of equal `charKind` in a character list. -/
def groupRuns : List Char → List (Nat × List Char)
  | [] => []
  | c :: cs => groupRunsAux (charKind c) [c] cs

/-- Value of a digit run, as computed by Python `int(...)`. -/
def digitsVal (cs : List Char) : Nat :=
  cs.foldl (fun a c => a * 10 + (c.toNat - 48)) 0

/-- `LooseVersion.parse`: split on `component_re`, drop dots and empty
pieces, convert digit runs to integers, keep the rest as strings. -/
def looseVersionParse (s : String) : List VComp :=
  (groupRuns s.toList).filterMap (fun p =>
    if p.1 = 2 then none
    else if p.1 = 0 then some (VComp.num (digitsVal p.2))
    else some (VComp.str p.2))

/-- Lexicographic comparison of character lists (Python 2 `str` `<`). -/
def charsLt : List Char → List Char → Bool
  | [], [] => false
  | [], _ :: _ => true
  | _ :: _, [] => false
  | a :: as, b :: bs => if a = b then charsLt as bs else decide (a < b)

/-- Python 2 `cmp` on version components: numbers compare among
themselves, strings compare lexicographically, and a number is smaller
than any string (mixed-type comparison in Python 2). -/
def vcompLt : VComp → VComp → Bool
  | VComp.num a, VComp.num b => decide (a < b)
  | VComp.num _, VComp.str _ => true
  | VComp.str _, VComp.num _ => false
  | VComp.str a, VComp.str b => charsLt a b

/-- Python equality on version components (`int == str` is `False`). -/
def vcompEq (a b : VComp) : Bool := decide (a = b)

/-- Python list comparison, lexicographic with shorter-prefix-first. -/
def vlistLt : List VComp → List VComp → Bool
  | [], [] => false
  | [], _ :: _ => true
  | _ :: _, [] => false
  | a :: as, b :: bs => if vcompEq a b then vlistLt as bs else vcompLt a b

/-- `LooseVersion(a) < LooseVersion(b)`. -/
def looseVersionLt (a b : String) : Bool :=
  vlistLt (looseVersionParse a) (looseVersionParse b)

/-- `getLatestTBBVersion` (gettor.py lines 219-235).  Keeps the versions
with no `'-'` in them; if that list is empty the subscript
`version_numbers[0]` raises `IndexError` (modelled as `none`); otherwise
the loop replaces the accumulator whenever a strictly
`LooseVersion`-smaller element is found. -/
def getLatestTBBVersion (versions : List String) : Option String :=
  match versions.filter (fun v => !(v.toList.contains '-')) with
  | [] => none
  | v0 :: rest =>
    some ((v0 :: rest).foldl
      (fun stable v => if looseVersionLt v stable then v else stable) v0)

/-! ## getBestLangMatch -/

/-- `parse_accept_language` (gettor.py lines 89-90): remove spaces, split
on commas, and keep the part of each entry before the first `;`. -/
def parse_accept_language (accept_language : String) : List String :=
  (splitOnChar ',' (accept_language.toList.filter (fun c => !(c = ' ' : Bool)))).map
    (fun l => String.mk ((splitOnChar ';' l).headD []))

/-- `language_only` (gettor.py lines 92-96): the part before the first
`-`, when one is present. -/
def language_only (lc : String) : String :=
  if lc.toList.contains '-' then
    String.mk ((splitOnChar '-' lc.toList).headD lc.toList)
  else lc

/-- First supported language equal (case-insensitively) to `lc`: the
inner loops at gettor.py lines 100-102 and 108-110. -/
def langExact (supported_lcs : List String) (lc : String) : Option String :=
  supported_lcs.find? (fun l => lowerChars lc.toList == lowerChars l.toList)

/-- First supported language whose primary subtag equals `lc`
case-insensitively: the inner loop at gettor.py lines 114-116. -/
def langPrimary (supported_lcs : List String) (lc : String) : Option String :=
  supported_lcs.find?
    (fun l => lowerChars lc.toList == lowerChars (language_only l).toList)

/-- The outer loop of `getBestLangMatch`: for each requested tag, try the
three passes; fall through to the next tag; return `'en-US'` when the
requested tags are exhausted (gettor.py line 118). -/
def bestLangGo (supported_lcs : List String) : List String → String
  | [] => "en-US"
  | lc :: rest =>
    match langExact supported_lcs lc with
    | some l => l
    | none =>
      match langExact supported_lcs (language_only lc) with
      | some l => l
      | none =>
        match langPrimary supported_lcs (language_only lc) with
        | some l => l
        | none => bestLangGo supported_lcs rest

/-- `getBestLangMatch` (gettor.py lines 82-118). -/
def getBestLangMatch (accept_language : String) (supported_lcs : List String) : String :=
  bestLangGo supported_lcs (parse_accept_language accept_language)

/-- The resolution rule as the specification words it (spec section 6):
for a requested tag, an exact case-insensitive match; else the requested
tag's primary subtag as an exact match; else any supported tag whose
primary subtag matches; combined per requested tag. -/
def passMatch (supported : List String) (lc : String) : Option String :=
  langExact supported lc <|> langExact supported (language_only lc)
    <|> langPrimary supported (language_only lc)

/-- The specification's `bestLocale` selection rule: the first requested
tag that resolves under `passMatch`, else the fixed fallback locale. -/
def bestLocaleRule (requested supported : List String) : String :=
  (requested.findSome? (fun lc => passMatch supported lc)).getD "en-US"

example : getLatestTBBVersion ["5.5.3", "5.5.4-alpha"] = some "5.5.3" := by decide

example : getBestLangMatch "es-PT,en;q=0.8" ["es-ES", "en-US"] = "es-ES" := by decide

/-- The broad notion of "pre-release marker" used by the specification's
data model (section 3) and quoted in claim C5: some dot-separated segment
of the version string contains a non-numeric character. -/
def hasNonNumericSegment (v : String) : Bool :=
  (splitOnChar '.' v.toList).any (fun seg => seg.any (fun c => !c.isDigit))

/-! ## Version-selection theorems -/

/-- A fold that at each step either keeps the accumulator or replaces it
by the current element preserves any property holding of the accumulator
and of every element. -/
theorem foldl_pick_invariant {α : Type} (p : α → Bool) (f : α → α → Bool) :
    ∀ (l : List α) (a : α), p a = true → (∀ x ∈ l, p x = true) →
      p (l.foldl (fun acc v => if f v acc then v else acc) a) = true := by
  intro l
  induction l with
  | nil => intro a ha _; exact ha
  | cons x xs ih =>
    intro a ha hall
    simp only [List.foldl_cons]
    cases hfx : f x a with
    | true =>
      simp only [hfx, if_true]
      exact ih x (hall x (List.mem_cons_self x xs)) (fun y hy => hall y (List.mem_cons_of_mem x hy))
    | false =>
      simp only [hfx, Bool.false_eq_true, if_false]
      exact ih a ha (fun y hy => hall y (List.mem_cons_of_mem x hy))

/-- Claim C1 (code_bug evidence): on the candidate set
`["5.5.3", "5.5.4"]` (both stable), `getLatestTBBVersion` returns
`"5.5.3"`, although `"5.5.3"` is `LooseVersion`-smaller than `"5.5.4"`,
so `"5.5.4"` is the dotted-numeric maximum of the filtered set.  The loop
at gettor.py lines 231-233 keeps the smaller version, contradicting the
function's own docstring "Return the latest TBB stable version". -/
theorem getLatestTBBVersion_returns_minimum :
    getLatestTBBVersion ["5.5.3", "5.5.4"] = some "5.5.3"
      ∧ looseVersionLt "5.5.3" "5.5.4" = true := by decide

/-- Claim C5 counterexample: on input `["5.5.3rc1"]` the function returns
`"5.5.3rc1"`, a version string containing a pre-release marker in the
claim's sense (the non-numeric dot-separated segment `3rc1`); the filter
at gettor.py lines 226-228 only removes hyphenated candidates. -/
theorem latestVersion_prerelease_cex :
    getLatestTBBVersion ["5.5.3rc1"] = some "5.5.3rc1"
      ∧ hasNonNumericSegment "5.5.3rc1" = true := by decide

/-- Claim C5 (amended): `getLatestTBBVersion` never returns a version
string containing a hyphen — every returned version survives the
`'-' not in v` filter. -/
theorem latestVersion_no_hyphen :
    ∀ (versions : List String) (r : String),
      getLatestTBBVersion versions = some r → r.toList.contains '-' = false := by
  intro versions r h
  unfold getLatestTBBVersion at h
  cases hf : versions.filter (fun v => !(v.toList.contains '-')) with
  | nil => rw [hf] at h; cases h
  | cons v0 rest =>
    rw [hf] at h
    have hr := Option.some.inj h
    have hall : ∀ x ∈ v0 :: rest, (!(x.toList.contains '-')) = true := by
      intro x hx
      have hx' : x ∈ versions.filter (fun v => !(v.toList.contains '-')) := by
        rw [hf]; exact hx
      exact (List.mem_filter.mp hx').2
    have := foldl_pick_invariant (fun v => !(v.toList.contains '-')) looseVersionLt
      (v0 :: rest) v0 (hall v0 (List.mem_cons_self v0 rest)) hall
    rw [hr] at this
    simpa using this

/-- Witness for `latestVersion_no_hyphen` at a concrete input. -/
theorem latestVersion_no_hyphen_witness :
    ("5.5.3" : String).toList.contains '-' = false :=
  latestVersion_no_hyphen ["5.5.3"] "5.5.3" (by decide)

/-- Claim C6 counterexample: a candidate set in which every entry
contains a pre-release marker in the specification's broad sense (a
non-numeric dot-separated segment) is not rejected: the hyphen-only
filter at gettor.py lines 226-228 keeps `"6.0a4"` and the function
returns it instead of failing. -/
theorem latestVersion_all_marked_cex :
    (∀ v ∈ ["6.0a4"], hasNonNumericSegment v = true)
      ∧ getLatestTBBVersion ["6.0a4"] = some "6.0a4" := by
  constructor
  · decide
  · decide

/-- Claim C6 (amended): for an empty candidate set, or one in which
every candidate contains a hyphen (the only pre-release marker the
filter removes), the selection fails — the subscript
`version_numbers[0]` raises `IndexError` (the failure the
specification's taxonomy names `NoStableVersionError`) and no version is
returned. -/
theorem latestVersion_all_prerelease_fails :
    ∀ versions : List String,
      (∀ v ∈ versions, v.toList.contains '-' = true) →
      getLatestTBBVersion versions = none := by
  intro versions h
  unfold getLatestTBBVersion
  have hf : versions.filter (fun v => !(v.toList.contains '-')) = [] := by
    rw [List.filter_eq_nil_iff]
    intro a ha
    rw [h a ha]
    decide
  rw [hf]

/-- Witness for `latestVersion_all_prerelease_fails`: an all-pre-release
candidate set (the empty set is also covered by the theorem). -/
theorem latestVersion_all_prerelease_fails_witness :
    getLatestTBBVersion ["5.5.4-alpha", "6.0a4-hardened"] = none :=
  latestVersion_all_prerelease_fails ["5.5.4-alpha", "6.0a4-hardened"] (by decide)

/-! ## Language-matching theorems -/

/-- The outer loop of `getBestLangMatch` computes the specification's
per-requested-tag rule: the first requested tag on which one of the three
passes succeeds wins, else the fixed fallback. -/
theorem bestLang_go_eq_rule (supported : List String) :
    ∀ requested, bestLangGo supported requested = bestLocaleRule requested supported := by
  intro requested
  induction requested with
  | nil => rfl
  | cons lc rest ih =>
    unfold bestLangGo bestLocaleRule passMatch
    rw [List.findSome?_cons]
    cases h1 : langExact supported lc with
    | some l => simp [h1]
    | none =>
      simp only [h1, Option.none_orElse]
      cases h2 : langExact supported (language_only lc) with
      | some l => simp [h2]
      | none =>
        simp only [h2, Option.none_orElse]
        cases h3 : langPrimary supported (language_only lc) with
        | some l => simp [h3]
        | none => simpa [h3] using ih

/-- Every non-fallback branch of `bestLangGo` returns an element found by
`List.find?` in the supported list; otherwise the literal fallback. -/
theorem bestLang_go_mem (supported : List String) :
    ∀ requested, bestLangGo supported requested ∈ supported
      ∨ bestLangGo supported requested = "en-US" := by
  intro requested
  induction requested with
  | nil => right; rfl
  | cons lc rest ih =>
    unfold bestLangGo
    cases h1 : langExact supported lc with
    | some l => exact Or.inl (List.mem_of_find?_eq_some h1)
    | none =>
      simp only []
      cases h2 : langExact supported (language_only lc) with
      | some l => exact Or.inl (List.mem_of_find?_eq_some h2)
      | none =>
        cases h3 : langPrimary supported (language_only lc) with
        | some l => exact Or.inl (List.mem_of_find?_eq_some h3)
        | none => exact ih

/-- Claim C9: `getBestLangMatch` applies, per requested tag in order, the
three-pass resolution rule (exact case-insensitive match; else the
requested tag's primary subtag as an exact match; else any supported tag
whose primary subtag matches), falling back to the fixed locale; and the
concrete scenario `"es-PT,en;q=0.8"` against `["es-ES", "en-US"]`
resolves to `"es-ES"`, not `"en-US"`. -/
theorem bestLangMatch_rule :
    (∀ al sup, getBestLangMatch al sup = bestLocaleRule (parse_accept_language al) sup)
      ∧ getBestLangMatch "es-PT,en;q=0.8" ["es-ES", "en-US"] = "es-ES" :=
  ⟨fun al sup => bestLang_go_eq_rule sup (parse_accept_language al), by decide⟩

/-- Claim C10: the result of `getBestLangMatch` is always either a member
of the supplied supported list or the literal `"en-US"`; and on a
no-match input the literal `"en-US"` is returned even though it is not a
member of the supported list. -/
theorem bestLangMatch_fallback_range :
    (∀ al sup, getBestLangMatch al sup ∈ sup ∨ getBestLangMatch al sup = "en-US")
      ∧ getBestLangMatch "xx" ["fr-FR"] = "en-US"
      ∧ ("en-US" : String) ∉ (["fr-FR"] : List String) :=
  ⟨fun al sup => bestLang_go_mem sup (parse_accept_language al), by decide, by decide⟩

/-! ## The generated filename-matching pattern (ArtifactMatcher)

`getTorTask` builds (gettor.py lines 272-285)

    filenames_regexp = "(l1.exe)|(l1.exe.asc)|(l1.dmg)|(l1.dmg.asc)|..."
    url_regexp = 'href=[\x27"]?([^\x27" >]+(%s))' % filenames_regexp

We model the language of the tokens captured by group 1: a token `f`
matches iff `f = p ++ s` where `p` is a nonempty run of characters
allowed by the class `[^\x27" >]`, and `s` is matched by the generated
alternation.  A regex dot is a wildcard for any character but a newline,
so `l1.exe` matches `l1`, then any character, then `exe`.  For an empty
locale list the generated alternation is the empty pattern, which matches
the empty string. -/

/-- The character class `[^\x27" >]` of the generated `url_regexp`. -/
def allowedURLChar (c : Char) : Bool :=
  !(c = '\'' || c = '"' || c = ' ' || c = '>')

/-- Match a literal character list at the front of the input, returning
the remainder. -/
def stripLit : List Char → List Char → Option (List Char)
  | [], s => some s
  | _ :: _, [] => none
  | c :: cs, d :: ds => if d = c then stripLit cs ds else none

/-- Match a regex dot (any character except a newline), returning the
remainder. -/
def stripWild : List Char → Option (List Char)
  | [] => none
  | c :: cs => if c = '\n' then none else some cs

/-- One binary alternative `(<lang>.<ext>)` of the generated alternation,
matched against the whole of `s`. -/
def altBin (lang ext : String) (s : List Char) : Bool :=
  decide ((((stripLit lang.toList s).bind stripWild).bind (stripLit ext.toList)) = some [])

/-- One signature alternative `(<lang>.<ext1>.<ext2>)` of the generated
alternation, matched against the whole of `s`. -/
def altSig (lang ext1 ext2 : String) (s : List Char) : Bool :=
  decide ((((((stripLit lang.toList s).bind stripWild).bind
    (stripLit ext1.toList)).bind stripWild).bind (stripLit ext2.toList)) = some [])

/-- The language of `filenames_regexp`: for an empty locale list the
loop at gettor.py lines 274-283 leaves `filenames_regexp = ''`, an empty
pattern matching only the empty string; otherwise the union over the
locales of the four per-locale alternatives. -/
def fileAltMatch (locales : List String) (s : List Char) : Bool :=
  if locales.isEmpty then decide (s = [])
  else locales.any (fun lang =>
    altBin lang "exe" s || altSig lang "exe" "asc" s
      || altBin lang "dmg" s || altSig lang "dmg" "asc" s)

/-- All decompositions of a list into `prefix ++ suffix`. -/
def listSplits : List Char → List (List Char × List Char)
  | [] => [([], [])]
  | c :: cs => ([], c :: cs) :: (listSplits cs).map (fun p => (c :: p.1, p.2))

/-- The token language of group 1 of the generated `url_regexp`: a
nonempty run of allowed characters followed by a match of the generated
alternation. -/
def urlRegexpMatch (locales : List String) (f : String) : Bool :=
  (listSplits f.toList).any (fun p =>
    !p.1.isEmpty && p.1.all allowedURLChar && fileAltMatch locales p.2)

theorem listSplits_mem (p s : List Char) : (p, s) ∈ listSplits (p ++ s) := by
  induction p with
  | nil => cases s <;> simp [listSplits]
  | cons c cs ih =>
    simp only [List.cons_append, listSplits]
    exact List.mem_cons_of_mem _ (List.mem_map.mpr ⟨(cs, s), ih, rfl⟩)

theorem listSplits_append (l : List Char) :
    ∀ q ∈ listSplits l, q.1 ++ q.2 = l := by
  induction l with
  | nil =>
    intro q hq
    simp only [listSplits, List.mem_singleton] at hq
    rw [hq]
    rfl
  | cons c cs ih =>
    intro q hq
    simp only [listSplits, List.mem_cons, List.mem_map] at hq
    rcases hq with h | ⟨r, hr, h⟩
    · rw [h]
      rfl
    · rw [← h]
      simp [ih r hr]

/-- Claim C4 counterexample: for the empty locale set the generated
pattern accepts the token `"a"` (indeed every nonempty token of allowed
characters), because the generated alternation degenerates to the empty
pattern — it does not match nothing. -/
theorem buildPattern_empty_cex : urlRegexpMatch [] "a" = true := by decide

/-- For the empty alternation, a split with an empty remainder forces the
whole token into the allowed-character run. -/
theorem splits_last_only (l : List Char) :
    (listSplits l).any (fun p =>
        !p.1.isEmpty && p.1.all allowedURLChar && decide (p.2 = []))
      = (!l.isEmpty && l.all allowedURLChar) := by
  rw [Bool.eq_iff_iff]
  simp only [List.any_eq_true]
  constructor
  · rintro ⟨⟨p, s⟩, hmem, hcond⟩
    have hps := listSplits_append l (p, s) hmem
    simp only [Bool.and_eq_true, decide_eq_true_eq] at hcond
    obtain ⟨⟨hne, hall⟩, hs⟩ := hcond
    subst hs
    rw [List.append_nil] at hps
    subst hps
    simp [hne, hall]
  · intro h
    refine ⟨(l, []), ?_, ?_⟩
    · have hm := listSplits_mem l []
      rwa [List.append_nil] at hm
    · simp only [Bool.and_eq_true, decide_eq_true_eq] at h ⊢
      exact ⟨h, trivial⟩

/-- Claim C4 (amended): for an empty locale set the predicate accepts
exactly the nonempty tokens of characters admitted by the pattern's
character class — every link-like token on the listing page, not none of
them. -/
theorem buildPattern_empty_total :
    ∀ f : String,
      urlRegexpMatch [] f = (!f.toList.isEmpty && f.toList.all allowedURLChar) := by
  intro f
  have hfa : ∀ s : List Char, fileAltMatch [] s = decide (s = []) := fun s => rfl
  simp only [urlRegexpMatch, hfa]
  exact splits_last_only f.toList

/-! ## One sync cycle of getTorTask (gettor.py lines 238-307)

The filesystem effects of the update branch are modelled over an abstract
state: the staging directory `temp` (gettor.py `temp_path`), the live
directory `latest` (`latest_path`), each `none` when absent, and the
version-marker file `marker` (`latest_tb_file`).  The branch body is a
sequence of atomic steps; a raised exception is modelled by an optional
failure index `failAt`: the steps strictly before the failing one are
applied, the failing step has no effect, and the `try ... except
Exception: pass` at the task boundary (lines 246, 306-307) swallows the
error.  The three network reads preceding the branch (version fetch,
marker read, enumeration) mutate nothing. -/

structure SyncState where
  temp : Option (List String)
  latest : Option (List String)
  marker : String
deriving DecidableEq, Repr

/-- `getTBBFilenames(mirror, ...)` (line 286): a network read, no
filesystem effect. -/
def enumStep : SyncState → SyncState := id

/-- `shutil.rmtree(temp_path, True)` (line 291). -/
def rmTempStep (s : SyncState) : SyncState := { s with temp := none }

/-- `os.mkdir(temp_path)` (line 292). -/
def mkTempStep (s : SyncState) : SyncState := { s with temp := some [] }

/-- one `downloadPage(url, savefile, ...)` into the staging directory
(lines 293-296). -/
def dlStep (f : String) (s : SyncState) : SyncState :=
  { s with temp := s.temp.map (fun l => l ++ [f]) }

/-- `shutil.rmtree(latest_path, True)` (line 298). -/
def rmLatestStep (s : SyncState) : SyncState := { s with latest := none }

/-- `shutil.move(temp_path, latest_path)` (line 299). -/
def moveStep (s : SyncState) : SyncState :=
  { s with latest := s.temp, temp := none }

/-- the version-marker overwrite (lines 303-304). -/
def writeMarkerStep (v : String) (s : SyncState) : SyncState := { s with marker := v }

/-- the three trailing steps of the update branch. -/
def postSteps (v : String) : List (SyncState → SyncState) :=
  [rmLatestStep, moveStep, writeMarkerStep v]

/-- The steps of the update branch (lines 286-304), in program order. -/
def updateSteps (v : String) (files : List String) : List (SyncState → SyncState) :=
  [enumStep, rmTempStep, mkTempStep] ++ files.map dlStep ++ postSteps v

/-- Run every step. -/
def applySteps (steps : List (SyncState → SyncState)) (s : SyncState) : SyncState :=
  steps.foldl (fun st f => f st) s

/-- Run only the first `k` steps (the steps preceding a failure). -/
def stepsUpTo : List (SyncState → SyncState) → Nat → SyncState → SyncState
  | _, 0, s => s
  | [], _ + 1, s => s
  | f :: fs, k + 1, s => stepsUpTo fs k (f s)

/-- Every state observable while a step sequence runs, including the
initial and final ones. -/
def statesTrace : List (SyncState → SyncState) → SyncState → List SyncState
  | [], s => [s]
  | f :: fs, s => s :: statesTrace fs (f s)

/-- The body of one `getTorTask` cycle: global step indices 0 (version
fetch) and 1 (marker read) precede the version comparison (line 268);
the update branch runs only when the marker differs from the fetched
version.  An error carries its failure index and the state reached when
it was raised. -/
def cycleBody (v : String) (files : List String) (failAt : Option Nat) (s : SyncState) :
    Except (Nat × SyncState) SyncState :=
  match failAt with
  | none => Except.ok (if s.marker = v then s else applySteps (updateSteps v files) s)
  | some k =>
    if k < 2 then Except.error (k, s)
    else if s.marker = v then Except.ok s
    else if k - 2 < (updateSteps v files).length then
      Except.error (k, stepsUpTo (updateSteps v files) (k - 2) s)
    else Except.ok (applySteps (updateSteps v files) s)

/-- `getTorTask` (lines 238-307): the whole body is wrapped in
`try ... except Exception: pass`, so a raised error is swallowed and the
task returns normally with whatever state the cycle had reached. -/
def getTorTask (v : String) (files : List String) (failAt : Option Nat) (s : SyncState) : SyncState :=
  match cycleBody v files failAt s with
  | Except.ok s' => s'
  | Except.error e => e.2

/-- Closed form of the state after the first `j` steps of the update
branch. -/
def prefixState (v : String) (files : List String) (s : SyncState) (j : Nat) : SyncState :=
  if j ≤ 1 then s
  else if j = 2 then { s with temp := none }
  else if j ≤ files.length + 3 then { s with temp := some (files.take (j - 3)) }
  else if j = files.length + 4 then { s with temp := some files, latest := none }
  else if j = files.length + 5 then { s with temp := none, latest := some files }
  else { s with temp := none, latest := some files, marker := v }

theorem stepsUpTo_nil (k : Nat) (s : SyncState) : stepsUpTo [] k s = s := by
  cases k <;> rfl

theorem stepsUpTo_full (steps : List (SyncState → SyncState)) :
    ∀ s, stepsUpTo steps steps.length s = applySteps steps s := by
  induction steps with
  | nil => intro s; rfl
  | cons f fs ih =>
    intro s
    simp only [List.length_cons, applySteps, List.foldl_cons]
    exact ih (f s)

theorem stepsUpTo_zero (l : List (SyncState → SyncState)) (s : SyncState) :
    stepsUpTo l 0 s = s := by
  cases l <;> rfl

theorem temp_map_nil (s : SyncState) :
    { s with temp := s.temp.map (fun l => l ++ ([] : List String)) } = s := by
  cases s with
  | mk t l m => cases t <;> simp

theorem stepsUpTo_dl_short (rest : List (SyncState → SyncState)) :
    ∀ (fs : List String) (k : Nat) (s : SyncState), k ≤ fs.length →
      stepsUpTo (fs.map dlStep ++ rest) k s
        = { s with temp := s.temp.map (fun l => l ++ fs.take k) } := by
  intro fs
  induction fs with
  | nil =>
    intro k s hk
    have hk0 : k = 0 := Nat.le_zero.mp hk
    rw [hk0, List.take_nil, stepsUpTo_zero]
    exact (temp_map_nil s).symm
  | cons f fs ih =>
    intro k s hk
    cases k with
    | zero =>
      rw [List.take_zero, stepsUpTo_zero]
      exact (temp_map_nil s).symm
    | succ k' =>
      have h1 : stepsUpTo ((f :: fs).map dlStep ++ rest) (k' + 1) s
          = stepsUpTo (fs.map dlStep ++ rest) k' (dlStep f s) := rfl
      rw [h1, ih k' (dlStep f s) (by simpa using hk)]
      cases s with
      | mk t l m => cases t <;> simp [dlStep, List.append_assoc]

theorem stepsUpTo_dl_past (rest : List (SyncState → SyncState)) :
    ∀ (fs : List String) (m : Nat) (s : SyncState),
      stepsUpTo (fs.map dlStep ++ rest) (fs.length + m) s
        = stepsUpTo rest m { s with temp := s.temp.map (fun l => l ++ fs) } := by
  intro fs
  induction fs with
  | nil =>
    intro m s
    simp only [List.map_nil, List.nil_append, List.length_nil, Nat.zero_add]
    rw [temp_map_nil s]
  | cons f fs ih =>
    intro m s
    have h1 : (f :: fs).length + m = (fs.length + m) + 1 := by
      rw [List.length_cons]; omega
    rw [h1]
    have h2 : stepsUpTo ((f :: fs).map dlStep ++ rest) ((fs.length + m) + 1) s
        = stepsUpTo (fs.map dlStep ++ rest) (fs.length + m) (dlStep f s) := rfl
    rw [h2, ih m (dlStep f s)]
    cases s with
    | mk t l m' => cases t <;> simp [dlStep, List.append_assoc]

theorem stepsUpTo_post_all (v : String) (m' : Nat) (x : SyncState) :
    stepsUpTo (postSteps v) (m' + 3) x
      = writeMarkerStep v (moveStep (rmLatestStep x)) := by
  have h : stepsUpTo (postSteps v) (m' + 3) x
      = stepsUpTo [] m' (writeMarkerStep v (moveStep (rmLatestStep x))) := rfl
  rw [h, stepsUpTo_nil]

theorem stepsUpTo_updateSteps (v : String) (files : List String) (s : SyncState) :
    ∀ j, stepsUpTo (updateSteps v files) j s = prefixState v files s j := by
  intro j
  rcases Nat.lt_or_ge j 3 with h3 | h3
  · interval_cases j
    · rfl
    · rfl
    · rfl
  · obtain ⟨i, rfl⟩ : ∃ i, j = i + 3 := ⟨j - 3, by omega⟩
    have h0 : stepsUpTo (updateSteps v files) (i + 3) s
        = stepsUpTo (files.map dlStep ++ postSteps v) i { s with temp := some [] } := rfl
    rcases le_or_lt i files.length with hi | hi
    · rw [h0, stepsUpTo_dl_short (postSteps v) files i _ hi]
      unfold prefixState
      rw [if_neg (by omega), if_neg (by omega), if_pos (by omega),
        show i + 3 - 3 = i from by omega]
      rfl
    · obtain ⟨m, hm, him⟩ : ∃ m, 1 ≤ m ∧ i = files.length + m :=
        ⟨i - files.length, by omega, by omega⟩
      rw [h0, him, stepsUpTo_dl_past (postSteps v) files m _]
      rcases (show m = 1 ∨ m = 2 ∨ ∃ m', m = m' + 3 from by
        rcases Nat.lt_or_ge m 3 with hlt | hge
        · interval_cases m
          · exact Or.inl rfl
          · exact Or.inr (Or.inl rfl)
        · exact Or.inr (Or.inr ⟨m - 3, by omega⟩)) with rfl | rfl | ⟨m', rfl⟩
      · unfold prefixState
        rw [if_neg (by omega), if_neg (by omega), if_neg (by omega), if_pos (by omega)]
        rfl
      · unfold prefixState
        rw [if_neg (by omega), if_neg (by omega), if_neg (by omega), if_neg (by omega),
          if_pos (by omega)]
        rfl
      · rw [stepsUpTo_post_all]
        unfold prefixState
        rw [if_neg (by omega), if_neg (by omega), if_neg (by omega), if_neg (by omega),
          if_neg (by omega)]
        rfl

theorem statesTrace_eq (steps : List (SyncState → SyncState)) :
    ∀ s, statesTrace steps s
      = (List.range (steps.length + 1)).map (fun k => stepsUpTo steps k s) := by
  induction steps with
  | nil => intro s; rfl
  | cons f fs ih =>
    intro s
    have h1 : statesTrace (f :: fs) s = s :: statesTrace fs (f s) := rfl
    rw [h1, List.length_cons]
    conv_rhs => rw [List.range_succ_eq_map]
    simp only [List.map_cons, List.map_map]
    have hfe : (fun k => stepsUpTo fs k (f s))
        = ((fun k => stepsUpTo (f :: fs) k s) ∘ Nat.succ) := funext (fun k => rfl)
    rw [ih (f s), hfe]
    rfl

theorem updateSteps_length (v : String) (files : List String) :
    (updateSteps v files).length = files.length + 6 := by
  simp [updateSteps, postSteps]

theorem prefixState_latest (v : String) (files : List String) (s : SyncState) (j : Nat) :
    (prefixState v files s j).latest = s.latest ∨ (prefixState v files s j).latest = none
      ∨ (prefixState v files s j).latest = some files := by
  unfold prefixState
  split_ifs <;> simp

theorem prefixState_early (v : String) (files : List String) (s : SyncState) (j : Nat)
    (hj : j ≤ files.length + 3) :
    (prefixState v files s j).latest = s.latest
      ∧ (prefixState v files s j).marker = s.marker := by
  unfold prefixState
  split_ifs with h1 h2
  · exact ⟨rfl, rfl⟩
  · exact ⟨rfl, rfl⟩
  · exact ⟨rfl, rfl⟩

theorem prefixState_marker_eq (v : String) (files : List String) (s : SyncState) (j : Nat)
    (hj : j ≤ files.length + 5) :
    (prefixState v files s j).marker = s.marker := by
  unfold prefixState
  split_ifs with h1 h2 h3 h4 h5
  · rfl
  · rfl
  · rfl
  · rfl
  · rfl
  · exact absurd hj (by omega)

theorem prefixState_final (v : String) (files : List String) (s : SyncState) :
    (prefixState v files s (files.length + 6)).latest = some files
      ∧ (prefixState v files s (files.length + 6)).marker = v := by
  unfold prefixState
  split_ifs with h1 h2 h3 h4 h5
  · exact absurd h1 (by omega)
  · exact absurd h2 (by omega)
  · exact absurd h3 (by omega)
  · exact absurd h4 (by omega)
  · exact absurd h5 (by omega)
  · exact ⟨rfl, rfl⟩

theorem applySteps_updateSteps (v : String) (files : List String) (s : SyncState) :
    applySteps (updateSteps v files) s = prefixState v files s (files.length + 6) := by
  rw [← stepsUpTo_full, updateSteps_length, stepsUpTo_updateSteps]

/-- Claim C2 counterexample: publishing release `["new.exe"]` over live
release `["old.exe"]` passes through an observable state whose live
directory holds neither the complete old set nor the complete new set:
`shutil.rmtree(latest_path)` (line 298) removes the live directory before
`shutil.move` (line 299) restores it, so the replacement is not a single
filesystem operation. -/
theorem publish_window_cex :
    ¬ (∀ st ∈ statesTrace (updateSteps "2.0" ["new.exe"])
          (⟨none, some ["old.exe"], "1.0"⟩ : SyncState),
        st.latest = some ["old.exe"] ∨ st.latest = some ["new.exe"]) := by
  decide

/-- Claim C2 (amended): at every observable instant during a publish the
live directory holds the complete previous release set, or is absent
(the delete-then-move window), or holds the complete new release set —
never a mix of the two sets. -/
theorem publish_trace_states :
    ∀ (v : String) (files : List String) (s st : SyncState),
      st ∈ statesTrace (updateSteps v files) s →
      st.latest = s.latest ∨ st.latest = none ∨ st.latest = some files := by
  intro v files s st hmem
  rw [statesTrace_eq] at hmem
  obtain ⟨j, _, rfl⟩ := List.mem_map.mp hmem
  rw [stepsUpTo_updateSteps]
  exact prefixState_latest v files s j

/-- Witness for `publish_trace_states` at a concrete trace state. -/
theorem publish_trace_states_witness :
    (⟨some ["new"], none, "1.0"⟩ : SyncState).latest
        = (⟨none, some ["old"], "1.0"⟩ : SyncState).latest
      ∨ (⟨some ["new"], none, "1.0"⟩ : SyncState).latest = none
      ∨ (⟨some ["new"], none, "1.0"⟩ : SyncState).latest = some ["new"] :=
  publish_trace_states "2.0" ["new"] ⟨none, some ["old"], "1.0"⟩
    ⟨some ["new"], none, "1.0"⟩ (by decide)

/-- Claim C7: the version marker is overwritten only after the directory
swap: failing at any point up to and including the `shutil.move` step
leaves the marker unchanged, and whenever the returned state carries a
changed marker the live directory already holds the complete new release
set. -/
theorem marker_after_swap :
    ∀ (v : String) (files : List String) (s : SyncState) (failAt : Option Nat),
      (∀ k, failAt = some k → k ≤ files.length + 7 →
        (getTorTask v files failAt s).marker = s.marker)
      ∧ ((getTorTask v files failAt s).marker ≠ s.marker →
          (getTorTask v files failAt s).latest = some files) := by
  intro v files s failAt
  cases failAt with
  | none =>
    constructor
    · intro k hk
      cases hk
    · intro hne
      by_cases hv : s.marker = v
      · exact absurd (by simp [getTorTask, cycleBody, hv]) hne
      · have hres : getTorTask v files none s = applySteps (updateSteps v files) s := by
          simp [getTorTask, cycleBody, hv]
        rw [hres, applySteps_updateSteps]
        exact (prefixState_final v files s).1
  | some k =>
    by_cases hk2 : k < 2
    · have hres : getTorTask v files (some k) s = s := by
        simp [getTorTask, cycleBody, hk2]
      constructor
      · intro k' _ _
        rw [hres]
      · intro hne
        exact absurd (by rw [hres]) hne
    · by_cases hv : s.marker = v
      · have hres : getTorTask v files (some k) s = s := by
          simp [getTorTask, cycleBody, hk2, hv]
        constructor
        · intro k' _ _
          rw [hres]
        · intro hne
          exact absurd (by rw [hres]) hne
      · by_cases hkl : k - 2 < (updateSteps v files).length
        · have hres : getTorTask v files (some k) s
              = stepsUpTo (updateSteps v files) (k - 2) s := by
            simp [getTorTask, cycleBody, hk2, hv, hkl]
          rw [updateSteps_length] at hkl
          constructor
          · intro k' _ _
            rw [hres, stepsUpTo_updateSteps]
            exact prefixState_marker_eq v files s (k - 2) (by omega)
          · intro hne
            exact absurd
              (by rw [hres, stepsUpTo_updateSteps]
                  exact prefixState_marker_eq v files s (k - 2) (by omega)) hne
        · have hres : getTorTask v files (some k) s
              = applySteps (updateSteps v files) s := by
            simp [getTorTask, cycleBody, hk2, hv, hkl]
          rw [updateSteps_length] at hkl
          constructor
          · intro k' hk' hk7
            have hkk : k' = k := (Option.some.inj hk').symm
            rw [hkk] at hk7
            exfalso
            omega
          · intro _
            rw [hres, applySteps_updateSteps]
            exact (prefixState_final v files s).1

/-- Witness for `marker_after_swap` at concrete inputs: a failure while
the staging directory is being prepared leaves the marker at its old
value, and a completed cycle that did change the marker has the new
release set live. -/
theorem marker_after_swap_witness :
    (getTorTask "2.0" ["f"] (some 3) ⟨none, some ["o"], "1.0"⟩).marker = "1.0"
      ∧ (getTorTask "2.0" ["f"] none ⟨none, some ["o"], "1.0"⟩).latest = some ["f"] :=
  ⟨(marker_after_swap "2.0" ["f"] ⟨none, some ["o"], "1.0"⟩ (some 3)).1 3 rfl (by decide),
   (marker_after_swap "2.0" ["f"] ⟨none, some ["o"], "1.0"⟩ none).2 (by decide)⟩

/-- Claim C8: every error raised inside a sync cycle is caught at the
task boundary (`except Exception: pass`), the task returning normally
with the state the cycle had reached; and a failure raised strictly
before the publish step (the `rmtree`/`move` pair) leaves the live
directory and the version marker unchanged. -/
theorem syncTask_error_containment :
    ∀ (v : String) (files : List String) (s : SyncState) (failAt : Option Nat),
      (∀ k s', cycleBody v files failAt s = Except.error (k, s') →
        getTorTask v files failAt s = s')
      ∧ (∀ k, failAt = some k → k < files.length + 5 →
          (getTorTask v files failAt s).latest = s.latest
            ∧ (getTorTask v files failAt s).marker = s.marker) := by
  intro v files s failAt
  constructor
  · intro k s' herr
    unfold getTorTask
    rw [herr]
  · intro k hk hk5
    rw [hk]
    by_cases hk2 : k < 2
    · have hres : getTorTask v files (some k) s = s := by
        simp [getTorTask, cycleBody, hk2]
      rw [hres]
      exact ⟨rfl, rfl⟩
    · by_cases hv : s.marker = v
      · have hres : getTorTask v files (some k) s = s := by
          simp [getTorTask, cycleBody, hk2, hv]
        rw [hres]
        exact ⟨rfl, rfl⟩
      · have hkl : k - 2 < (updateSteps v files).length := by
          rw [updateSteps_length]
          omega
        have hres : getTorTask v files (some k) s
            = stepsUpTo (updateSteps v files) (k - 2) s := by
          simp [getTorTask, cycleBody, hk2, hv, hkl]
        rw [hres, stepsUpTo_updateSteps]
        exact prefixState_early v files s (k - 2) (by omega)

/-- Witness for `syncTask_error_containment` at a concrete input: the
cycle fails at global step 4 (the `os.mkdir` of the staging directory),
the error is swallowed,
and the live directory and marker are untouched. -/
theorem syncTask_error_containment_witness :
    getTorTask "2.0" ["f"] (some 4) ⟨none, some ["o"], "1.0"⟩
        = ⟨none, some ["o"], "1.0"⟩
      ∧ (getTorTask "2.0" ["f"] (some 4) ⟨none, some ["o"], "1.0"⟩).latest = some ["o"]
      ∧ (getTorTask "2.0" ["f"] (some 4) ⟨none, some ["o"], "1.0"⟩).marker = "1.0" :=
  ⟨(syncTask_error_containment "2.0" ["f"] ⟨none, some ["o"], "1.0"⟩ (some 4)).1 4
      ⟨none, some ["o"], "1.0"⟩ (by rfl),
   (syncTask_error_containment "2.0" ["f"] ⟨none, some ["o"], "1.0"⟩ (some 4)).2 4 rfl
      (by decide)⟩
